import Mathlib

/-!
# Verification of the ring-attention core (`ring_attention.py`)

This development embeds the core of `ring_attention_pytorch/ring_attention.py`
in Lean 4 and settles the frozen claims about it.

Modelling conventions:

* Tensors are embedded as curried functions over `Fin` indices (numeric core)
  or as nested lists (sharding gateway), with entries in `ℚ`.
* The dtype's masking value `-torch.finfo(dtype).max` is modelled as `⊥` in
  `WithBot ℚ`: whenever a score row keeps at least one unmasked entry, the
  dtype's `exp(mask_value - rowmax)` underflows to exactly `0`, so a masked
  score contributes exactly zero softmax weight, which is what `⊥` (the
  spec's `-∞`) denotes here.  A row with *every* entry masked is outside
  this regime (the finite masking value then softmaxes uniformly in the
  source); theorems that quantify over masks assume each batch row keeps a
  valid key, which is also the spec's precondition for the degenerate case.
* The floating-point exponential is modelled as an abstract function
  `e : ℚ → ℚ`; theorems that need them assume the exponential laws
  `e (a + b) = e a * e b` and `0 < e a`.  `softmax` is embedded by its
  mathematical meaning `e s / ∑ e s`.
* The distributed collectives (`AllGather`, `split_by_rank`, the ring pass)
  and `ring_flash_attn` are not part of the given sources; where a claim
  needs them they are modelled from the spec, and each such definition's
  doc comment says so.
-/

namespace RingAttn

/-- Weight of a (possibly masked) score under the abstract exponential `e`:
a masked score `⊥` has weight `0`, an unmasked score `a` has weight `e a`. -/
def expWeight (e : ℚ → ℚ) (x : WithBot ℚ) : ℚ :=
  WithBot.recBotCoe 0 e x

/-- Weight `exp (x - m)` of a shifted score, as used by the online softmax:
`0` when the score is masked, and `0` in the degenerate case where the
running maximum is still `⊥` (which only happens when everything seen so
far is masked). -/
def expShift (e : ℚ → ℚ) (x m : WithBot ℚ) : ℚ :=
  WithBot.recBotCoe 0 (fun a => WithBot.recBotCoe 0 (fun b => e (a - b)) m) x

@[simp] lemma expWeight_bot (e : ℚ → ℚ) : expWeight e ⊥ = 0 := rfl

@[simp] lemma expWeight_coe (e : ℚ → ℚ) (a : ℚ) : expWeight e (a : WithBot ℚ) = e a := rfl

@[simp] lemma expShift_bot (e : ℚ → ℚ) (m : WithBot ℚ) : expShift e ⊥ m = 0 := rfl

@[simp] lemma expShift_coe_bot (e : ℚ → ℚ) (a : ℚ) : expShift e (a : WithBot ℚ) ⊥ = 0 := rfl

@[simp] lemma expShift_coe_coe (e : ℚ → ℚ) (a b : ℚ) :
    expShift e (a : WithBot ℚ) (b : WithBot ℚ) = e (a - b) := rfl

/-- Raw similarity scores `einx.dot('b h i d, b h j d -> b h i j', q, k)`
(line 49 of the source). -/
def simQK {B H I J d : ℕ} (q : Fin B → Fin H → Fin I → Fin d → ℚ)
    (k : Fin B → Fin H → Fin J → Fin d → ℚ)
    (b : Fin B) (h : Fin H) (i : Fin I) (j : Fin J) : ℚ :=
  ∑ t : Fin d, q b h i t * k b h j t

/-- Entry `(i, j)` of `torch.ones((i, j), dtype = torch.bool).triu(j - i + 1)`
(line 55 of the source): `triu(diag)` keeps the entries with
`col - row ≥ diag`, where `diag = J - I + 1` is a (possibly negative)
integer. -/
def causalMaskEntry {I J : ℕ} (i : Fin I) (j : Fin J) : Bool :=
  decide ((j.val : ℤ) - (i.val : ℤ) ≥ (J : ℤ) - (I : ℤ) + 1)

/-- Scores of `default_attention` after the masking block (lines 51-59 of the
source): if `causal` is set, exactly the `triu` entries are replaced by the
masking value (`einx.where('i j, , b h i j -> b h i j', causal_mask,
mask_value, sim)`); otherwise only (`elif`) if a mask is provided, entries
whose key-position mask is `False` are replaced
(`einx.where('b j, b h i j, -> b h i j', mask, sim, mask_value)`). -/
def maskedScores {B H I J d : ℕ} (causal : Bool)
    (mask : Option (Fin B → Fin J → Bool))
    (q : Fin B → Fin H → Fin I → Fin d → ℚ)
    (k : Fin B → Fin H → Fin J → Fin d → ℚ)
    (b : Fin B) (h : Fin H) (i : Fin I) (j : Fin J) : WithBot ℚ :=
  if causal then
    (if causalMaskEntry i j then ⊥ else (simQK q k b h i j : WithBot ℚ))
  else
    match mask with
    | some m => if m b j then (simQK q k b h i j : WithBot ℚ) else ⊥
    | none => (simQK q k b h i j : WithBot ℚ)

/-- Row-wise softmax weight `einx.softmax('b h i [j]', sim)` (line 63 of the
source), in its mathematical form `e s / ∑ e s`, with masked entries
weighing `0`.  This is the source softmax exactly in the regime where the
row has at least one unmasked entry: there the row maximum is a genuine
score and `exp(mask_value - rowmax)` underflows to exactly `0` in the
dtype.  A row in which *every* entry is masked is outside this regime —
the source's masking value is the finite `-finfo.max`, so the source
softmax of such a row is uniform and the fallback returns the mean of the
values, whereas this model yields `0` (`0 / 0`); theorems that quantify
over masks therefore assume each batch row keeps at least one valid key
(also the spec's stated precondition for the degenerate fully-masked
case). -/
def softmaxRow {n : ℕ} (e : ℚ → ℚ) (s : Fin n → WithBot ℚ) (j : Fin n) : ℚ :=
  expWeight e (s j) / ∑ c : Fin n, expWeight e (s c)

/-- The single-device fallback `default_attention` (lines 38-69 of the
source): masked scores, row softmax, then
`einx.dot('b h i j, b h j d -> b h i d', attn, v)`. -/
def default_attention {B H I J d : ℕ} (e : ℚ → ℚ) (causal : Bool)
    (mask : Option (Fin B → Fin J → Bool))
    (q : Fin B → Fin H → Fin I → Fin d → ℚ)
    (k : Fin B → Fin H → Fin J → Fin d → ℚ)
    (v : Fin B → Fin H → Fin J → Fin d → ℚ)
    (b : Fin B) (h : Fin H) (i : Fin I) (t : Fin d) : ℚ :=
  ∑ j : Fin J, softmaxRow e (maskedScores causal mask q k b h i) j * v b h j t

/-- Modelled from the spec: the running (online) softmax accumulator of
Flash Block Attention, the triple `(running_max, running_sum,
running_weighted_output)` kept per query row (spec section 4.2). -/
structure FlashState (dv : ℕ) where
  m : WithBot ℚ
  l : ℚ
  acc : Fin dv → ℚ

/-- Modelled from the spec: the identity accumulator
`m = -∞`, `l = 0`, `acc = 0` used on the first block (spec section 4.2). -/
def initFlashState (dv : ℕ) : FlashState dv :=
  ⟨⊥, 0, fun _ => 0⟩

/-- Modelled from the spec: one Flash Block Attention step for one query row
(spec section 4.2, steps 3-6).  `s j` is the already-masked score of the
row against global key position `j` and `v` the value rows; `blk` is the
set of key positions of the current key/value block.  Block-local max,
new running max, rescale of the previous accumulator by
`exp (m_prev - m_new)`, block contribution `exp (s - m_new)`. -/
def flashStep {n dv : ℕ} (e : ℚ → ℚ) (s : Fin n → WithBot ℚ)
    (v : Fin n → Fin dv → ℚ) (blk : Finset (Fin n)) (st : FlashState dv) :
    FlashState dv :=
  let mblk := blk.sup s
  let mnew := max st.m mblk
  { m := mnew
    l := st.l * expShift e st.m mnew + ∑ j ∈ blk, expShift e (s j) mnew
    acc := fun t =>
      st.acc t * expShift e st.m mnew + ∑ j ∈ blk, expShift e (s j) mnew * v j t }

/-- Key positions of sequence shard `w`: with shard size `S` and world size
`W`, shard `w` owns the contiguous positions `j` with `j / S = w`. -/
def shardSet (S W : ℕ) (w : Fin W) : Finset (Fin (S * W)) :=
  Finset.univ.filter (fun j => j.val / S = w.val)

/-- Modelled from the spec: the order in which rank `r` sees the key/value
shards around the ring (spec section 4.3).  At step `t` every rank holds
the shard of its `t`-th predecessor, starting with its own, so rank `r`
processes shards `r, r-1, ..., r-W+1` (mod `W`). -/
def ringOrder {W : ℕ} (r : Fin W) : List (Fin W) :=
  (List.finRange W).map (fun t => r - t)

/-- Modelled from the spec: the accumulator held by rank `r` for one query
row after all `W` ring steps — Flash Block Attention folded over the
ring-passed key/value shards (spec section 4.3). -/
def ringRowFold {S W dv : ℕ} (e : ℚ → ℚ) (s : Fin (S * W) → WithBot ℚ)
    (v : Fin (S * W) → Fin dv → ℚ) (r : Fin W) : FlashState dv :=
  (ringOrder r).foldl (fun st w => flashStep e s v (shardSet S W w) st)
    (initFlashState dv)

/-- Modelled from the spec: rank `r`'s output for one query row — the final
accumulator divided by its running sum (spec section 4.3, terminal state). -/
def ringRowOut {S W dv : ℕ} (e : ℚ → ℚ) (s : Fin (S * W) → WithBot ℚ)
    (v : Fin (S * W) → Fin dv → ℚ) (r : Fin W) (t : Fin dv) : ℚ :=
  (ringRowFold e s v r).acc t / (ringRowFold e s v r).l

/-- Modelled from the spec: the masking rule of Flash Block Attention (spec
section 4.2, step 2): a score is set to `-∞` wherever the key position's
validity mask is `False`, and, if `causal` is set, wherever the key
position index exceeds the query position index. -/
def ringMaskedScores {B H n d : ℕ} (causal : Bool)
    (mask : Option (Fin B → Fin n → Bool))
    (q k : Fin B → Fin H → Fin n → Fin d → ℚ)
    (b : Fin B) (h : Fin H) (i j : Fin n) : WithBot ℚ :=
  if (match mask with
      | some m => !(m b j)
      | none => false) || (causal && decide (j.val > i.val)) then ⊥
  else (simQK q k b h i j : WithBot ℚ)

/-- Global query position of local row `p` of rank `r`'s resident query
shard: shard `r` owns rows `r * S, ..., r * S + S - 1`. -/
def globalRow {S W : ℕ} (r : Fin W) (p : Fin S) : Fin (S * W) :=
  ⟨r.val * S + p.val, by
    calc r.val * S + p.val < r.val * S + S := Nat.add_lt_add_left p.isLt _
      _ = (r.val + 1) * S := by ring
      _ ≤ W * S := Nat.mul_le_mul_right S r.isLt
      _ = S * W := Nat.mul_comm W S⟩

/-- Modelled from the spec: `ring_flash_attn` — the ring-attention
orchestrator's output (spec sections 4.2-4.3).  The full sequence of
length `S * W` is split into `W` contiguous key/value shards; rank `r`
keeps its resident query shard (rows `r*S .. r*S+S-1`) and folds Flash
Block Attention over the ring-passed key/value shards, starting with its
own.  The sub-tiling of a shard into `q_bucket_size`/`k_bucket_size`
blocks refines the same fold and does not change its value, so the model
works at shard granularity.  Scores are masked per section 4.2 step 2. -/
def ring_flash_attn {B H S W d : ℕ} (e : ℚ → ℚ)
    (q k v : Fin B → Fin H → Fin (S * W) → Fin d → ℚ)
    (mask : Option (Fin B → Fin (S * W) → Bool)) (causal : Bool) (r : Fin W)
    (b : Fin B) (h : Fin H) (p : Fin S) (t : Fin d) : ℚ :=
  ringRowOut e (ringMaskedScores causal mask q k b h (globalRow r p))
    (fun j u => v b h j u) r t

/-- Closed form of the online-softmax accumulator after the key positions in
`K` have been folded in: running max over `K`, and the shifted weights and
weighted values summed over `K`. -/
def stateOf {n dv : ℕ} (e : ℚ → ℚ) (s : Fin n → WithBot ℚ)
    (v : Fin n → Fin dv → ℚ) (K : Finset (Fin n)) : FlashState dv :=
  ⟨K.sup s, ∑ j ∈ K, expShift e (s j) (K.sup s),
    fun t => ∑ j ∈ K, expShift e (s j) (K.sup s) * v j t⟩

lemma expShift_trans {e : ℚ → ℚ} (he : ∀ a b : ℚ, e (a + b) = e a * e b)
    {x m m' : WithBot ℚ} (h1 : x ≤ m) (h2 : m ≤ m') :
    expShift e x m * expShift e m m' = expShift e x m' := by
  induction x using WithBot.recBotCoe with
  | bot => simp
  | coe a =>
    obtain ⟨p, rfl, _⟩ := WithBot.coe_le_iff.mp h1
    obtain ⟨u, rfl, _⟩ := WithBot.coe_le_iff.mp h2
    simp only [expShift_coe_coe]
    rw [← he (a - p) (p - u)]
    congr 1
    ring

lemma stateOf_empty {n dv : ℕ} (e : ℚ → ℚ) (s : Fin n → WithBot ℚ)
    (v : Fin n → Fin dv → ℚ) : stateOf e s v ∅ = initFlashState dv := by
  simp [stateOf, initFlashState]

lemma flashStep_stateOf {n dv : ℕ} {e : ℚ → ℚ}
    (he : ∀ a b : ℚ, e (a + b) = e a * e b) (s : Fin n → WithBot ℚ)
    (v : Fin n → Fin dv → ℚ) {K B : Finset (Fin n)} (hd : Disjoint K B) :
    flashStep e s v B (stateOf e s v K) = stateOf e s v (K ∪ B) := by
  have hm : max (K.sup s) (B.sup s) = (K ∪ B).sup s := by
    rw [Finset.sup_union]
  have hKle : K.sup s ≤ (K ∪ B).sup s :=
    Finset.sup_mono Finset.subset_union_left
  have hterm : ∀ j ∈ K,
      expShift e (s j) (K.sup s) * expShift e (K.sup s) ((K ∪ B).sup s) =
        expShift e (s j) ((K ∪ B).sup s) := fun j hj =>
    expShift_trans he (Finset.le_sup hj) hKle
  unfold flashStep stateOf
  simp only [hm]
  congr 1
  · rw [Finset.sum_mul, Finset.sum_union hd]
    congr 1
    exact Finset.sum_congr rfl hterm
  · funext t
    rw [Finset.sum_mul, Finset.sum_union hd]
    congr 1
    refine Finset.sum_congr rfl fun j hj => ?_
    rw [mul_right_comm, hterm j hj]

/-- Key positions covered by a list of shard indices. -/
def seenKeys (S W : ℕ) (ws : List (Fin W)) : Finset (Fin (S * W)) :=
  ws.toFinset.biUnion (shardSet S W)

lemma shardSet_disjoint {S W : ℕ} {u w : Fin W} (huw : u ≠ w) :
    Disjoint (shardSet S W u) (shardSet S W w) := by
  rw [Finset.disjoint_left]
  intro j hj hj'
  simp only [shardSet, Finset.mem_filter, Finset.mem_univ, true_and] at hj hj'
  exact huw (Fin.ext (hj ▸ hj'))

lemma foldl_flashStep_eq_stateOf {S W dv : ℕ} {e : ℚ → ℚ}
    (he : ∀ a b : ℚ, e (a + b) = e a * e b) (s : Fin (S * W) → WithBot ℚ)
    (v : Fin (S * W) → Fin dv → ℚ) (ws : List (Fin W)) (hnd : ws.Nodup) :
    ws.foldl (fun st w => flashStep e s v (shardSet S W w) st)
        (initFlashState dv) =
      stateOf e s v (seenKeys S W ws) := by
  induction ws using List.reverseRecOn with
  | nil => simp [seenKeys, stateOf_empty]
  | append_singleton ws w ih =>
    rw [List.nodup_append] at hnd
    obtain ⟨hws, -, hdisj⟩ := hnd
    have hwmem : w ∉ ws := fun hmem => hdisj hmem (List.mem_singleton_self w)
    have hseen : seenKeys S W (ws ++ [w]) = seenKeys S W ws ∪ shardSet S W w := by
      ext j
      simp only [seenKeys, List.toFinset_append, List.toFinset_cons,
        List.toFinset_nil, insert_emptyc_eq, Finset.mem_biUnion,
        Finset.mem_union, Finset.mem_singleton]
      constructor
      · rintro ⟨a, ha | rfl, hj⟩
        · exact Or.inl ⟨a, ha, hj⟩
        · exact Or.inr hj
      · rintro (⟨a, ha, hj⟩ | hj)
        · exact ⟨a, Or.inl ha, hj⟩
        · exact ⟨w, Or.inr rfl, hj⟩
    have hdis : Disjoint (seenKeys S W ws) (shardSet S W w) := by
      rw [seenKeys, Finset.disjoint_biUnion_left]
      intro u hu
      refine shardSet_disjoint fun huw => ?_
      exact hwmem (huw ▸ List.mem_toFinset.mp hu)
    rw [List.foldl_append, List.foldl_cons, List.foldl_nil, ih hws, hseen,
      flashStep_stateOf he s v hdis]

lemma ringOrder_nodup {W : ℕ} (r : Fin W) : (ringOrder r).Nodup := by
  haveI : NeZero W := ⟨by have := r.pos; omega⟩
  exact (List.nodup_finRange W).map (sub_right_injective)

lemma seenKeys_ringOrder {S W : ℕ} (r : Fin W) :
    seenKeys S W (ringOrder r) = Finset.univ := by
  haveI : NeZero W := ⟨by have := r.pos; omega⟩
  apply Finset.eq_univ_iff_forall.mpr
  intro j
  have hS : 0 < S := by
    rcases Nat.eq_zero_or_pos S with h | h
    · exact absurd j.isLt (by simp [h])
    · exact h
  have hjw : j.val / S < W := by
    rw [Nat.div_lt_iff_lt_mul hS]
    calc j.val < S * W := j.isLt
      _ = W * S := Nat.mul_comm S W
  refine Finset.mem_biUnion.mpr ⟨⟨j.val / S, hjw⟩, ?_, ?_⟩
  · apply List.mem_toFinset.mpr
    refine List.mem_map.mpr ⟨r - ⟨j.val / S, hjw⟩, List.mem_finRange _, ?_⟩
    exact sub_sub_cancel r _
  · simp [shardSet]

lemma ringRowFold_eq_stateOf_univ {S W dv : ℕ} {e : ℚ → ℚ}
    (he : ∀ a b : ℚ, e (a + b) = e a * e b) (s : Fin (S * W) → WithBot ℚ)
    (v : Fin (S * W) → Fin dv → ℚ) (r : Fin W) :
    ringRowFold e s v r = stateOf e s v Finset.univ := by
  unfold ringRowFold
  rw [foldl_flashStep_eq_stateOf he s v _ (ringOrder_nodup r),
    seenKeys_ringOrder r]

lemma expShift_sup_eq {n : ℕ} {e : ℚ → ℚ}
    (he : ∀ a b : ℚ, e (a + b) = e a * e b) (s : Fin n → WithBot ℚ) {mx : ℚ}
    (hmx : Finset.univ.sup s = (mx : WithBot ℚ)) (j : Fin n) :
    expShift e (s j) (Finset.univ.sup s) = expWeight e (s j) * e (-mx) := by
  rw [hmx]
  induction s j using WithBot.recBotCoe with
  | bot => simp
  | coe a =>
    simp only [expShift_coe_coe, expWeight_coe]
    rw [sub_eq_add_neg, he]

lemma div_sum_eq_softmax_sum {n dv : ℕ} {e : ℚ → ℚ}
    (he : ∀ a b : ℚ, e (a + b) = e a * e b) (hpos : ∀ a : ℚ, 0 < e a)
    (s : Fin n → WithBot ℚ) (v : Fin n → Fin dv → ℚ) (t : Fin dv) :
    (∑ j, expShift e (s j) (Finset.univ.sup s) * v j t) /
        (∑ j, expShift e (s j) (Finset.univ.sup s)) =
      ∑ j, softmaxRow e s j * v j t := by
  by_cases hbot : Finset.univ.sup s = ⊥
  · have hall : ∀ j, s j = ⊥ := fun j =>
      (Finset.sup_eq_bot_iff s Finset.univ).mp hbot j (Finset.mem_univ j)
    simp [softmaxRow, hall]
  · obtain ⟨mx, hmx⟩ := WithBot.ne_bot_iff_exists.mp hbot
    have hkey := expShift_sup_eq he s hmx.symm
    have h1 : ∑ j, expShift e (s j) (Finset.univ.sup s) * v j t =
        (∑ j, expWeight e (s j) * v j t) * e (-mx) := by
      rw [Finset.sum_mul]
      exact Finset.sum_congr rfl fun j _ => by rw [hkey j]; ring
    have h2 : ∑ j, expShift e (s j) (Finset.univ.sup s) =
        (∑ j, expWeight e (s j)) * e (-mx) := by
      rw [Finset.sum_mul]
      exact Finset.sum_congr rfl fun j _ => hkey j
    rw [h1, h2, mul_div_mul_right _ _ (ne_of_gt (hpos (-mx)))]
    unfold softmaxRow
    rw [Finset.sum_div]
    exact Finset.sum_congr rfl fun j _ => (div_mul_eq_mul_div _ _ _).symm

/-- Rank `r`'s per-row ring output agrees with the mathematical softmax over
the full masked score row, assuming the exponential laws. -/
lemma ringRowOut_eq_softmax {S W dv : ℕ} {e : ℚ → ℚ}
    (he : ∀ a b : ℚ, e (a + b) = e a * e b) (hpos : ∀ a : ℚ, 0 < e a)
    (s : Fin (S * W) → WithBot ℚ) (v : Fin (S * W) → Fin dv → ℚ) (r : Fin W)
    (t : Fin dv) :
    ringRowOut e s v r t = ∑ j, softmaxRow e s j * v j t := by
  unfold ringRowOut
  rw [ringRowFold_eq_stateOf_univ he s v r]
  exact div_sum_eq_softmax_sum he hpos s v t

/-- When no mask is supplied, or the causal flag is off, the spec's masking
rule for the ring path and `default_attention`'s masking block agree.
(When both a mask and the causal flag are present they do not: see the
counterexample for C2.) -/
lemma ringMaskedScores_eq_maskedScores {B H n d : ℕ} (causal : Bool)
    (mask : Option (Fin B → Fin n → Bool))
    (q k : Fin B → Fin H → Fin n → Fin d → ℚ)
    (hm : mask = none ∨ causal = false) (b : Fin B) (h : Fin H) (i : Fin n) :
    ringMaskedScores causal mask q k b h i = maskedScores causal mask q k b h i := by
  funext j
  have hcm : causalMaskEntry i j = decide (j.val > i.val) := by
    unfold causalMaskEntry
    rw [decide_eq_decide]
    omega
  rcases hm with rfl | rfl
  · cases causal with
    | false => simp [ringMaskedScores, maskedScores]
    | true => simp [ringMaskedScores, maskedScores, hcm]
  · cases mask with
    | none => simp [ringMaskedScores, maskedScores]
    | some m =>
      cases hmb : m b j with
      | false => simp [ringMaskedScores, maskedScores, hmb]
      | true => simp [ringMaskedScores, maskedScores, hmb]

/-- C2 (amended): for every world size `W ≥ 1` and every input whose length
is a multiple of `ring_shard_size * W` (embedded as length `S * W`), the
distributed ring-attention path produces, at every rank and every local
query row, the same output as the single-device fallback
`default_attention` at the corresponding global row — provided that no
key-validity mask is supplied when the causal flag is set (the fallback
ignores the mask in causal mode, the ring path does not; see the
counterexample), and that any supplied mask keeps at least one valid key
position in every batch row.  The second proviso delimits the regime in
which this embedding is exact: with a valid key present, the dtype's
`exp(mask_value - rowmax)` underflows to exactly `0` and the row softmax
is the model's; a fully masked row instead softmaxes the finite masking
value uniformly in the source, a degenerate case the spec itself only
guarantees when "at least one unmasked block exists for that query".  The
floating-point exponential is abstracted as any `e` satisfying the
exponential laws.  (Causal rows with no mask always keep their diagonal
key, so they need no such proviso.) -/
theorem ring_path_matches_fallback {B H S W d : ℕ} (e : ℚ → ℚ)
    (he : ∀ a b : ℚ, e (a + b) = e a * e b) (hpos : ∀ a : ℚ, 0 < e a)
    (causal : Bool) (mask : Option (Fin B → Fin (S * W) → Bool))
    (q k v : Fin B → Fin H → Fin (S * W) → Fin d → ℚ)
    (hm : mask = none ∨ causal = false)
    (_hrows : ∀ m, mask = some m → ∀ b : Fin B, ∃ j, m b j = true)
    (r : Fin W) (b : Fin B) (h : Fin H)
    (p : Fin S) (t : Fin d) :
    ring_flash_attn e q k v mask causal r b h p t =
      default_attention e causal mask q k v b h (globalRow r p) t := by
  unfold ring_flash_attn default_attention
  rw [ringMaskedScores_eq_maskedScores causal mask q k hm b h (globalRow r p)]
  exact ringRowOut_eq_softmax he hpos _ _ r t

/-- Witness for C2's amended theorem at a concrete input: world size 1,
shard size 1, constant-one exponential, no mask. -/
theorem ring_path_matches_fallback_witness :
    ring_flash_attn (B := 1) (H := 1) (S := 1) (W := 1) (d := 1)
        (fun _ => 1) (fun _ _ _ _ => 0) (fun _ _ _ _ => 0) (fun _ _ _ _ => 0)
        none false 0 0 0 0 0 =
      default_attention (B := 1) (H := 1) (I := 1 * 1) (J := 1 * 1) (d := 1)
        (fun _ => 1) false none (fun _ _ _ _ => 0)
        (fun _ _ _ _ => 0) (fun _ _ _ _ => 0) 0 0 (globalRow 0 0) 0 :=
  ring_path_matches_fallback (B := 1) (H := 1) (S := 1) (W := 1) (d := 1)
    (fun _ => 1) (fun a b => by norm_num) (fun a => one_pos) false none
    (fun _ _ _ _ => 0) (fun _ _ _ _ => 0) (fun _ _ _ _ => 0)
    (Or.inl rfl) (fun m hmm => Option.noConfusion hmm) 0 0 0 0 0

/-- C2 counterexample: at world size 2, shard size 1, with the causal flag
set and a key-validity mask that invalidates global position 1, rank 1's
ring output at its query row (global position 1) differs from the
fallback's output there: the fallback's `elif` drops the mask in causal
mode while the ring path (per the spec) applies it.  So the claim does not
hold for every input of length `ring_shard_size * W`. -/
theorem ring_path_counterexample :
    ring_flash_attn (B := 1) (H := 1) (S := 1) (W := 2) (d := 1)
        (fun _ => 1) (fun _ _ _ _ => 0) (fun _ _ _ _ => 0)
        (fun _ _ j _ => if j.val = 1 then 2 else 0)
        (some (fun _ j => decide (j.val = 0))) true 1 0 0 0 0 ≠
      default_attention (B := 1) (H := 1) (I := 1 * 2) (J := 1 * 2) (d := 1)
        (fun _ => 1) true (some (fun _ j => decide (j.val = 0)))
        (fun _ _ _ _ => 0) (fun _ _ _ _ => 0)
        (fun _ _ j _ => if j.val = 1 then 2 else 0) 0 0 (globalRow 1 0) 0 := by
  unfold ring_flash_attn default_attention
  rw [ringRowOut_eq_softmax (fun a b => by norm_num) (fun a => one_pos)]
  have hsR : ringMaskedScores (B := 1) (H := 1) (n := 1 * 2) (d := 1) true
      (some fun _ j => decide (j.val = 0)) (fun _ _ _ _ => 0)
      (fun _ _ _ _ => 0) 0 0 (globalRow 1 0) =
      fun j => if j.val = 0 then ((0 : ℚ) : WithBot ℚ) else ⊥ := by
    funext j
    fin_cases j <;> simp [ringMaskedScores, simQK, globalRow]
  have hsF : maskedScores (B := 1) (H := 1) (I := 1 * 2) (J := 1 * 2)
      (d := 1) true (some fun _ j => decide (j.val = 0)) (fun _ _ _ _ => 0)
      (fun _ _ _ _ => 0) 0 0 (globalRow 1 0) =
      fun _ => ((0 : ℚ) : WithBot ℚ) := by
    funext j
    fin_cases j <;> simp [maskedScores, causalMaskEntry, simQK, globalRow]
  have h0 : expWeight (fun _ : ℚ => (1 : ℚ)) (0 : WithBot ℚ) = 1 := rfl
  rw [hsR, hsF, Fin.sum_univ_two, Fin.sum_univ_two]
  simp [softmaxRow, Fin.sum_univ_two, h0]

/-- C4 counterexample: with the causal flag set, a supplied mask that is
`False` at key position 0 for query position 0 (a position the causal rule
allows), the score after `default_attention`'s masking block is the raw
similarity `1`, not the masking value: the `elif` skips mask application
whenever `causal` is set. -/
theorem maskedScores_counterexample :
    maskedScores (B := 1) (H := 1) (I := 1) (J := 1) (d := 1) true
        (some (fun _ _ => false)) (fun _ _ _ _ => 1) (fun _ _ _ _ => 1)
        0 0 0 0 ≠ (⊥ : WithBot ℚ) := by
  decide

/-- C4 (amended): in `default_attention` the two maskings are mutually
exclusive, not cumulative: when the causal flag is set the supplied
validity mask is ignored entirely (the masked scores do not depend on it,
and a score is masked exactly when the key position index exceeds the
query position index, in global coordinates); the validity mask is applied
to the scores only when `causal` is false. -/
theorem maskedScores_characterization {B H I J d : ℕ}
    (q : Fin B → Fin H → Fin I → Fin d → ℚ)
    (k : Fin B → Fin H → Fin J → Fin d → ℚ)
    (b : Fin B) (h : Fin H) (i : Fin I) (j : Fin J) :
    (∀ m m' : Option (Fin B → Fin J → Bool),
      maskedScores true m q k b h i j = maskedScores true m' q k b h i j)
    ∧ (∀ m : Option (Fin B → Fin J → Bool),
      maskedScores true m q k b h i j = ⊥ ↔ j.val + I > i.val + J)
    ∧ (∀ mm : Fin B → Fin J → Bool,
      maskedScores false (some mm) q k b h i j =
        if mm b j then (simQK q k b h i j : WithBot ℚ) else ⊥)
    ∧ maskedScores false none q k b h i j = (simQK q k b h i j : WithBot ℚ) := by
  have hcm : causalMaskEntry i j = true ↔ j.val + I > i.val + J := by
    simp only [causalMaskEntry, decide_eq_true_eq]
    omega
  refine ⟨fun m m' => rfl, fun m => ?_, fun mm => rfl, rfl⟩
  have hred : maskedScores true m q k b h i j =
      (if causalMaskEntry i j then (⊥ : WithBot ℚ)
       else ((simQK q k b h i j : ℚ) : WithBot ℚ)) := rfl
  rw [hred]
  cases hc : causalMaskEntry i j with
  | true =>
    rw [if_pos rfl]
    exact iff_of_true rfl (hcm.mp hc)
  | false =>
    rw [if_neg Bool.false_ne_true]
    refine iff_of_false WithBot.coe_ne_bot fun hgt => ?_
    rw [hcm.mpr hgt] at hc
    exact Bool.noConfusion hc

/-- C5: for every causal run of the fallback attention, the output at query
position `i` depends only on key and value positions `≤ i`: two inputs
that agree on keys and values at all positions `≤ i` (the masks and the
positions `> i` may differ arbitrarily) give equal outputs at row `i`. -/
theorem causal_output_depends_only_on_past {B H n d : ℕ} (e : ℚ → ℚ)
    (mask mask' : Option (Fin B → Fin n → Bool))
    (q k v k' v' : Fin B → Fin H → Fin n → Fin d → ℚ) (i : Fin n)
    (hk : ∀ (b : Fin B) (h : Fin H) (j : Fin n), j.val ≤ i.val →
      ∀ t, k b h j t = k' b h j t)
    (hv : ∀ (b : Fin B) (h : Fin H) (j : Fin n), j.val ≤ i.val →
      ∀ t, v b h j t = v' b h j t)
    (b : Fin B) (h : Fin H) (t : Fin d) :
    default_attention e true mask q k v b h i t =
      default_attention e true mask' q k' v' b h i t := by
  have hrow : maskedScores true mask q k b h i =
      maskedScores true mask' q k' b h i := by
    funext j
    cases hc : causalMaskEntry i j with
    | true => simp [maskedScores, hc]
    | false =>
      have hji : j.val ≤ i.val := by
        simp only [causalMaskEntry, decide_eq_false_iff_not] at hc
        omega
      have hsim : simQK q k b h i j = simQK q k' b h i j :=
        Finset.sum_congr rfl fun u _ => by rw [hk b h j hji u]
      simp [maskedScores, hc, hsim]
  unfold default_attention
  rw [hrow]
  refine Finset.sum_congr rfl fun j _ => ?_
  by_cases hji : j.val ≤ i.val
  · rw [hv b h j hji t]
  · have hbot : maskedScores true mask' q k' b h i j = ⊥ := by
      have hc : causalMaskEntry i j = true := by
        simp only [causalMaskEntry, decide_eq_true_eq]
        omega
      simp [maskedScores, hc]
    simp [softmaxRow, hbot]

/-- Witness for C5 at a concrete input: sequence length 2, query row 0,
values that agree at position 0 and differ at position 1. -/
theorem causal_output_depends_only_on_past_witness :
    default_attention (B := 1) (H := 1) (I := 2) (J := 2) (d := 1)
        (fun _ => 1) true none (fun _ _ _ _ => 0) (fun _ _ _ _ => 0)
        (fun _ _ j _ => (j.val : ℚ)) 0 0 0 0 =
      default_attention (B := 1) (H := 1) (I := 2) (J := 2) (d := 1)
        (fun _ => 1) true none (fun _ _ _ _ => 0)
        (fun _ _ _ _ => 0) (fun _ _ j _ => if j.val = 0 then 0 else 5)
        0 0 0 0 :=
  causal_output_depends_only_on_past (B := 1) (H := 1) (n := 2) (d := 1)
    (fun _ => 1) none none
    (fun _ _ _ _ => 0) (fun _ _ _ _ => 0) (fun _ _ j _ => (j.val : ℚ))
    (fun _ _ _ _ => 0) (fun _ _ j _ => if j.val = 0 then 0 else 5) 0
    (by decide) (by decide) 0 0 0

end RingAttn

namespace Gateway

/-- Dynamically typed runtime value, as handled by the sharding-gateway code:
float tensors of rank 1-3, bool tensors of rank 1-3 (nested lists, outer
axis first), a rank-1 integer tensor (the gathered batch sizes), a Python
integer, and a Python tuple.  The gateway functions in the source bind
tuples to names that are later used as tensors, so the embedding must
track this distinction at runtime exactly as Python does. -/
inductive PyV where
  | t1 : List ℚ → PyV
  | t2 : List (List ℚ) → PyV
  | t3 : List (List (List ℚ)) → PyV
  | b1 : List Bool → PyV
  | b2 : List (List Bool) → PyV
  | b3 : List (List (List Bool)) → PyV
  | ints : List ℕ → PyV
  | pyInt : ℕ → PyV
  | tup : List PyV → PyV

/-- Size of the trailing axis, `x.shape[-1]`; an error on values that have
no shape (tuples, plain integers).  Tensors are assumed rectangular (as
torch guarantees), so the head row's length is the shape entry. -/
def lastDim : PyV → Except String ℕ
  | .t1 xs => .ok xs.length
  | .t2 xs => .ok (xs.headD []).length
  | .t3 xs => .ok ((xs.headD []).headD []).length
  | .b1 xs => .ok xs.length
  | .b2 xs => .ok (xs.headD []).length
  | .b3 xs => .ok ((xs.headD []).headD []).length
  | .ints xs => .ok xs.length
  | _ => .error "shape of a non-tensor value"

/-- Append `p` entries along the trailing axis, `F.pad(x, (0, p), value)`:
the call sites pad float tensors with `0` and bool tensors with `False`,
which is what this does. -/
def padLast (p : ℕ) : PyV → Except String PyV
  | .t1 xs => .ok (.t1 (xs ++ List.replicate p 0))
  | .t2 xs => .ok (.t2 (xs.map (fun r => r ++ List.replicate p 0)))
  | .t3 xs => .ok (.t3 (xs.map (fun m => m.map (fun r => r ++ List.replicate p 0))))
  | .b1 xs => .ok (.b1 (xs ++ List.replicate p false))
  | .b2 xs => .ok (.b2 (xs.map (fun r => r ++ List.replicate p false)))
  | .b3 xs => .ok (.b3 (xs.map (fun m => m.map (fun r => r ++ List.replicate p false))))
  | _ => .error "pad of a non-tensor value"

/-- The source's `pad_to_multiple` (lines 73-85): measures the trailing
axis, and pads it up to the next multiple of `length`, returning the
(possibly unchanged) tensor together with the pad length. -/
def pad_to_multiple (x : PyV) (length : ℕ) : Except String (PyV × ℕ) := do
  let seq_len ← lastDim x
  if length == 0 then Except.error "integer modulo by zero" else
  let remainder := seq_len % length
  if remainder == 0 then pure (x, 0)
  else do
    let p := length - remainder
    let xp ← padLast p x
    pure (xp, p)

/-- The mask synthesized at line 102, `torch.ones_like(orig_x).bool()`. -/
def onesLikeBool : PyV → Except String PyV
  | .t1 xs => .ok (.b1 (xs.map fun _ => true))
  | .t2 xs => .ok (.b2 (xs.map fun r => r.map fun _ => true))
  | .t3 xs => .ok (.b3 (xs.map fun m => m.map fun r => r.map fun _ => true))
  | _ => .error "ones_like of a non-tensor value"

def asT2 : PyV → Except String (List (List ℚ))
  | .t2 xs => .ok xs
  | _ => .error "not a rank-2 float tensor"

def asT3 : PyV → Except String (List (List (List ℚ)))
  | .t3 xs => .ok xs
  | _ => .error "not a rank-3 float tensor"

def asB2 : PyV → Except String (List (List Bool))
  | .b2 xs => .ok xs
  | _ => .error "not a rank-2 bool tensor"

def asB3 : PyV → Except String (List (List (List Bool)))
  | .b3 xs => .ok xs
  | _ => .error "not a rank-3 bool tensor"

/-- Modelled from the spec: `AllGather(dim = 0)` — the all-gather collective
along the batch axis.  Every rank contributes its (tensor) value; the
results are concatenated along axis 0 and the per-rank batch extents are
recorded (`all_gather(tensor, axis) -> (gathered, per_rank_sizes)`).
Applying it to a non-tensor participant (such as a Python tuple) is a
type error, as it is in torch. -/
def allGatherDim0 (vals : List PyV) : Except String (PyV × List ℕ) :=
  match vals.mapM asT2 with
  | .ok ls => .ok (.t2 ls.flatten, ls.map List.length)
  | .error _ =>
  match vals.mapM asT3 with
  | .ok ls => .ok (.t3 ls.flatten, ls.map List.length)
  | .error _ =>
  match vals.mapM asB2 with
  | .ok ls => .ok (.b2 ls.flatten, ls.map List.length)
  | .error _ =>
  match vals.mapM asB3 with
  | .ok ls => .ok (.b3 ls.flatten, ls.map List.length)
  | .error _ => .error "all_gather applied to a non-tensor or mixed-dtype value"

/-- Chunk `c` of size `chunkSize` of one row. -/
def chunkRow (chunkSize c : ℕ) (r : List α) : List α :=
  (r.drop (c * chunkSize)).take chunkSize

/-- `x.split(seq_size, dim = -1)` — split the trailing axis into contiguous
chunks of size `seq_size` (the last chunk may be smaller), giving a tuple
of `ceil(lastDim / seq_size)` tensors.  A type error on tuples, as in
torch. -/
def splitLast (chunkSize : ℕ) (v : PyV) : Except String (List PyV) := do
  if chunkSize == 0 then Except.error "split size zero" else
  let d ← lastDim v
  let count := (d + chunkSize - 1) / chunkSize
  match v with
  | .t1 xs => pure ((List.range count).map (fun c => .t1 (chunkRow chunkSize c xs)))
  | .t2 xs => pure ((List.range count).map (fun c => .t2 (xs.map (chunkRow chunkSize c))))
  | .t3 xs => pure ((List.range count).map (fun c =>
      .t3 (xs.map (fun m => m.map (chunkRow chunkSize c)))))
  | .b1 xs => pure ((List.range count).map (fun c => .b1 (chunkRow chunkSize c xs)))
  | .b2 xs => pure ((List.range count).map (fun c => .b2 (xs.map (chunkRow chunkSize c))))
  | .b3 xs => pure ((List.range count).map (fun c =>
      .b3 (xs.map (fun m => m.map (chunkRow chunkSize c)))))
  | _ => Except.error "split of a non-tensor value"

/-- Modelled from the spec: `split_by_rank` is the spec's
`rank_local_slice(split_sequence) -> this_rank's_piece`: from a sequence
of per-rank pieces, rank `r` keeps piece `r`. -/
def split_by_rank (rank : ℕ) (xs : List PyV) : Except String PyV :=
  match xs[rank]? with
  | some v => .ok v
  | none => .error "rank out of range of the split"

/-- Python tuple unpacking `a, b = v`: succeeds on a pair, and on a tensor
whose leading axis has extent exactly 2 (iterating a tensor yields its
axis-0 slices).  Unpacking a rank-1 float/bool tensor would yield rank-0
tensors, which no execution modelled here produces, so it is reported as
an error. -/
def pyUnpack2 : PyV → Except String (PyV × PyV)
  | .tup [a, b] => .ok (a, b)
  | .t2 [r0, r1] => .ok (.t1 r0, .t1 r1)
  | .t3 [m0, m1] => .ok (.t2 m0, .t2 m1)
  | .b2 [r0, r1] => .ok (.b1 r0, .b1 r1)
  | .b3 [m0, m1] => .ok (.b2 m0, .b2 m1)
  | .ints [a, b] => .ok (.pyInt a, .pyInt b)
  | _ => .error "cannot unpack value into two names"

/-- Modelled from the spec: `AllGather(dim = -2)` — all-gather along the
second-to-last axis.  For a rank-3 tensor that is the sequence axis; for a
rank-2 tensor it is axis 0; for a rank-1 tensor the axis does not exist,
which is an error, as it is in torch. -/
def allGatherDimNeg2 (vals : List PyV) : Except String (PyV × List ℕ) :=
  match vals.mapM asT3 with
  | .ok ls =>
    let b := (ls.headD []).length
    if ls.all (fun t => t.length == b) then
      .ok (.t3 ((List.range b).map (fun i =>
        (ls.map (fun t => t.getD i [])).flatten)),
        ls.map (fun t => (t.headD []).length))
    else .error "all_gather with mismatched batch extents"
  | .error _ =>
  match vals.mapM asT2 with
  | .ok ls => .ok (.t2 ls.flatten, ls.map List.length)
  | .error _ => .error "all_gather dim -2 applied to an unsupported value"

/-- Leading-axis split by explicit sizes. -/
def takeSizes : List ℕ → List α → List (List α)
  | [], _ => []
  | s :: rest, l => l.take s :: takeSizes rest (l.drop s)

/-- `x.split(sizes, dim = 0)` — split the leading axis into chunks of the
given sizes; torch requires the sizes to sum to the axis extent. -/
def splitSizesDim0 (sizes : List ℕ) : PyV → Except String (List PyV)
  | .t1 xs =>
    if sizes.sum == xs.length then .ok ((takeSizes sizes xs).map PyV.t1)
    else .error "split sizes do not sum to the axis extent"
  | .t2 xs =>
    if sizes.sum == xs.length then .ok ((takeSizes sizes xs).map PyV.t2)
    else .error "split sizes do not sum to the axis extent"
  | .t3 xs =>
    if sizes.sum == xs.length then .ok ((takeSizes sizes xs).map PyV.t3)
    else .error "split sizes do not sum to the axis extent"
  | _ => .error "split of a non-tensor value"

/-- The source's `sharded_batch_to_sharded_seq` (lines 87-127), executed at
`rank` in a world of `W` ranks whose per-rank inputs are `xs` and `masks`
(a collective: the all-gathers see every rank's value at that point; all
ranks run the same code).  `is_distributed` is modelled from the spec's
world metadata as `W > 1`.  Two bindings follow the source exactly rather
than the spec's intent: line 104 binds the whole `(tensor, pad_length)`
pair returned by `pad_to_multiple` to `mask`, and line 121 tuple-unpacks
the single piece kept from the sequence split (`x, _ = split_by_rank(x)`).
Line 113 likewise binds the whole `(gathered, sizes)` all-gather result to
`mask`; the mask all-gather already fails before that whenever padding
occurred, because each participant's value is then a tuple. -/
def sharded_batch_to_sharded_seq (W rank : ℕ) (xs : List PyV)
    (masks : List (Option PyV)) (seq_size : ℕ) :
    Except String ((PyV × Option PyV) × List ℕ) := do
  if W ≤ 1 then Except.error "assert is_distributed" else
  let stepped ← (xs.zip masks).mapM (fun pr => do
    let xpad ← pad_to_multiple pr.1 seq_size
    if xpad.2 > 0 then do
      let m0 ← (match pr.2 with
        | some m => Except.ok m
        | none => onesLikeBool pr.1)
      let mp ← pad_to_multiple m0 seq_size
      pure (xpad.1, some (PyV.tup [mp.1, PyV.pyInt mp.2]))
    else
      pure (xpad.1, pr.2))
  let gathered ← allGatherDim0 (stepped.map Prod.fst)
  let maskAfter ← (match (stepped.map Prod.snd).getD rank none with
    | none => Except.ok none
    | some _ => do
      let mvals ← (stepped.map Prod.snd).mapM (fun o => match o with
        | some mv => Except.ok mv
        | none => Except.error "all_gather with a missing participant")
      let mg ← allGatherDim0 mvals
      Except.ok (some (PyV.tup [mg.1, PyV.ints mg.2])))
  let chunks ← splitLast seq_size gathered.1
  if chunks.length != W then
    Except.error "assert len chunks == get_world_size" else do
  let piece ← split_by_rank rank chunks
  let xpair ← pyUnpack2 piece
  let maskFinal ← (match maskAfter with
    | none => Except.ok (none : Option PyV)
    | some mv => do
      let mchunks ← splitLast seq_size mv
      let mp ← split_by_rank rank mchunks
      Except.ok (some mp))
  pure ((xpair.1, maskFinal), gathered.2)

/-- The source's `sharded_seq_to_sharded_batch` (lines 129-141), executed at
`rank`: all-gather the per-rank output shards along the sequence axis,
split the result along the batch axis by the recorded `sizes`, and keep
this rank's piece. -/
def sharded_seq_to_sharded_batch (rank : ℕ) (outs : List PyV)
    (sizes : List ℕ) : Except String PyV := do
  let g ← allGatherDimNeg2 outs
  let parts ← splitSizesDim0 sizes g.1
  split_by_rank rank parts

/-- Truncation of the trailing axis to the original sequence length, the
final step the round-trip claim prescribes. -/
def truncLast (n : ℕ) : PyV → Except String PyV
  | .t1 xs => .ok (.t1 (xs.take n))
  | .t2 xs => .ok (.t2 (xs.map (List.take n)))
  | .t3 xs => .ok (.t3 (xs.map (fun m => m.map (List.take n))))
  | .b1 xs => .ok (.b1 (xs.take n))
  | .b2 xs => .ok (.b2 (xs.map (List.take n)))
  | .b3 xs => .ok (.b3 (xs.map (fun m => m.map (List.take n))))
  | _ => .error "truncation of a non-tensor value"

/-- Whether a gateway computation completed without error. -/
def exceptIsOk : Except String α → Bool
  | .ok _ => true
  | .error _ => false

/-- The round trip of claim C1: every rank converts its batch shard to a
sequence shard, the sequence shards are converted back to batch shards
with the recorded batch sizes, and the result is truncated to the original
sequence length. -/
def gateway_round_trip (W seq_size rank : ℕ) (xs : List PyV)
    (masks : List (Option PyV)) (orig_len : ℕ) : Except String PyV := do
  let shards ← (List.range W).mapM
    (fun i => sharded_batch_to_sharded_seq W i xs masks seq_size)
  let own := shards.getD rank ((PyV.tup [], none), [])
  let res ← sharded_seq_to_sharded_batch rank
    (shards.map (fun s => s.1.1)) own.2
  truncLast orig_len res

/-- Padded trailing-axis length and pad length reported by
`pad_to_multiple`, for direct evaluation. -/
def padProbe (x : PyV) (n : ℕ) : Option (ℕ × ℕ) :=
  match pad_to_multiple x n with
  | .ok pr =>
    match lastDim pr.1 with
    | .ok d => some (d, pr.2)
    | .error _ => none
  | .error _ => none

/-- The source's `divisible_by` helper (lines 35-36). -/
def divisible_by (num den : ℕ) : Bool :=
  num % den == 0

/-- Configuration state a successfully constructed `RingAttention` module
carries (the fields of `__init__` that the claims concern; the learned
projection weights are runtime parameters of the forward model). -/
structure RingAttentionCfg where
  causal : Bool
  ring_attn : Bool
  auto_shard_seq : Bool
  ring_seq_size : ℕ
  q_bucket_size : ℕ
  k_bucket_size : ℕ

/-- The source's `RingAttention.__init__` (lines 146-187): the two
divisibility asserts (lines 168-169), the `auto_shard_seq` default to
`ring_attn` (line 172), and the flag-consistency assert (line 174).  A
failed assert is a construction-time error; otherwise the configuration is
recorded.  `dim`, `dim_head`, `heads`, `eps` and `prenorm` only
parameterize the learned projections and do not influence success. -/
def RingAttention_init (_dim _dim_head _heads : ℕ) (causal : Bool)
    (q_bucket_size k_bucket_size : ℕ) (ring_attn : Bool) (ring_seq_size : ℕ)
    (auto_shard_seq : Option Bool) : Except String RingAttentionCfg :=
  if !divisible_by ring_seq_size q_bucket_size then
    .error "assert divisible_by ring_seq_size q_bucket_size"
  else if !divisible_by ring_seq_size k_bucket_size then
    .error "assert divisible_by ring_seq_size k_bucket_size"
  else
    let auto := auto_shard_seq.getD ring_attn
    if !ring_attn && auto then
      .error "assert not (not ring_attn and auto_shard_seq)"
    else
      .ok ⟨causal, ring_attn, auto, ring_seq_size, q_bucket_size,
        k_bucket_size⟩

/-- Batched sequence activations `[batch, sequence, feature]`. -/
abbrev T3 := List (List (List ℚ))

/-- Per-head activations `[batch, heads, sequence, head_dim]`. -/
abbrev T4 := List (List (List (List ℚ)))

/-- A `[batch, sequence]` boolean validity mask. -/
abbrev T2b := List (List Bool)

/-- `x.shape[-1]` of a `[batch, sequence, feature]` tensor: the feature
extent (this is what line 206 of the source records as `seq_len`). -/
def t3LastDim (x : T3) : ℕ :=
  ((x.headD []).headD []).length

/-- `q * self.scale` (line 216). -/
def scaleT4 (c : ℚ) (q : T4) : T4 :=
  q.map (fun a => a.map (fun b => b.map (fun r => r.map (fun x => c * x))))

def expectT3 : PyV → Except String T3
  | .t3 xs => .ok xs
  | _ => .error "expected a rank-3 float tensor"

def expectB2 : PyV → Except String T2b
  | .b2 xs => .ok xs
  | _ => .error "expected a rank-2 bool tensor"

/-- `out[:, :seq_len]` (line 237): slice the second axis. A rank-1 tensor
has no second axis — too many indices. -/
def sliceAxis1 (n : ℕ) : PyV → Except String PyV
  | .t2 xs => .ok (.t2 (xs.map (List.take n)))
  | .t3 xs => .ok (.t3 (xs.map (List.take n)))
  | .b2 xs => .ok (.b2 (xs.map (List.take n)))
  | .b3 xs => .ok (.b3 (xs.map (List.take n)))
  | _ => .error "too many indices for this value"

/-- The source's `RingAttention.forward` (lines 189-239).  The ambient
distributed context is modelled from the spec's world metadata as explicit
parameters: `dist` (`is_distributed()`), the world size `W`, this process'
`rank`, the other ranks' inputs `peersX`/`peersMask` seen by the gateway's
collectives, and the other ranks' projected outputs `peersOut` seen by the
inverse collective.  The learned projections and the attention kernels are
function parameters: `qkvSplit` is `to_qkv` composed with the
`rearrange` to per-head form, `combineHeads`/`outProj` are the output
recombination and `to_out`, and `attnDefault`/`attnRing` are
`default_attention` and `ring_flash_attn` (the numeric core, verified
separately in the `RingAttn` namespace).  The control flow — flag
resolution (lines 203-204), the `seq_len = x.shape[-1]` record (line 206),
the gateway conversion on the auto-shard path (lines 208-209 and 235-237)
with its tuple-unpack of the inverse conversion's result (line 236), the
dispatch on `is_distributed()` (line 218), and the final truncation
`out[:, :seq_len]` (line 237) — is concrete. -/
def RingAttention_forward (cfg : RingAttentionCfg) (scale : ℚ) (dist : Bool)
    (W rank : ℕ) (peersX : List T3) (peersMask : List (Option T2b))
    (peersOut : List PyV) (qkvSplit : T3 → T4 × T4 × T4)
    (combineHeads : T4 → T3) (outProj : T3 → T3)
    (attnDefault : T4 → T4 → T4 → Option T2b → Bool → T4)
    (attnRing : T4 → T4 → T4 → Option T2b → Bool → ℕ → ℕ → Bool → T4)
    (x : T3) (mask : Option T2b) : Except String T3 := do
  let ring_attn := cfg.ring_attn && dist
  let auto_shard_seq := cfg.auto_shard_seq && dist
  let seq_len := t3LastDim x
  let staged ←
    if auto_shard_seq then do
      let res ← sharded_batch_to_sharded_seq W rank (peersX.map PyV.t3)
        (peersMask.map (Option.map PyV.b2)) cfg.ring_seq_size
      let x2 ← expectT3 res.1.1
      let m2 ← (match res.1.2 with
        | none => Except.ok (none : Option T2b)
        | some mv => do
          let mb ← expectB2 mv
          Except.ok (some mb))
      Except.ok (x2, m2, some res.2)
    else
      Except.ok (x, mask, (none : Option (List ℕ)))
  let qkv := qkvSplit staged.1
  let q := scaleT4 scale qkv.1
  let out :=
    if !dist then attnDefault q qkv.2.1 qkv.2.2 staged.2.1 cfg.causal
    else
      attnRing q qkv.2.1 qkv.2.2 staged.2.1 cfg.causal cfg.q_bucket_size
        cfg.k_bucket_size ring_attn
  let outp := outProj (combineHeads out)
  if auto_shard_seq then do
    let bs ← (match staged.2.2 with
      | some bs => Except.ok bs
      | none => Except.error "internal: batch sizes missing")
    let resv ← sharded_seq_to_sharded_batch rank
      (peersOut.set rank (PyV.t3 outp)) bs
    let pr ← pyUnpack2 resv
    let sliced ← sliceAxis1 seq_len pr.1
    expectT3 sliced
  else
    Except.ok outp

/-- The single-device pipeline claim C10 describes: project to per-head
Q/K/V, scale Q, full fallback attention, recombine heads, output
projection — no sharding-gateway conversion anywhere. -/
def forwardSingleDevice (cfg : RingAttentionCfg) (scale : ℚ)
    (qkvSplit : T3 → T4 × T4 × T4) (combineHeads : T4 → T3)
    (outProj : T3 → T3)
    (attnDefault : T4 → T4 → T4 → Option T2b → Bool → T4)
    (x : T3) (mask : Option T2b) : T3 :=
  let qkv := qkvSplit x
  outProj (combineHeads
    (attnDefault (scaleT4 scale qkv.1) qkv.2.1 qkv.2.2 mask cfg.causal))

/-- C1: the batch-to-sequence round trip fails outright on an input needing
padding (sequence length 3, shard size 2, world size 2, no mask): each
rank's `sharded_batch_to_sharded_seq` rebinds `mask` to the
`(tensor, pad_length)` tuple returned by `pad_to_multiple` (line 104) and
then feeds that tuple to the batch all-gather (line 113), a type error —
so nothing is reconstructed. -/
theorem gateway_round_trip_fails :
    exceptIsOk (gateway_round_trip 2 2 0
      [PyV.t2 [[1, 2, 3]], PyV.t2 [[4, 5, 6]]] [none, none] 3) = false := by
  rfl

/-- C3: on a call that requires padding (sequence length 5, shard size 4, no
mask supplied), `sharded_batch_to_sharded_seq` does synthesize an all-True
mask and pad it with `False`, but then binds the whole
`(padded_mask, pad_length)` pair to `mask` (line 104) and passes the pair
to the all-gather (line 113), which fails — no
`(sequence_shard, mask_shard), sizes` with a boolean mask shard is ever
returned. -/
theorem batch_to_seq_mask_error :
    exceptIsOk (sharded_batch_to_sharded_seq 2 0
      [PyV.t2 [[1, 2, 3, 4, 5]], PyV.t2 [[6, 7, 8, 9, 10]]]
      [none, none] 4) = false := by
  rfl

/-- C7: a call on which the gathered, padded sequence splits into exactly
`W = 2` chunks of size 1 (so the claim says it succeeds with rank `r`
keeping chunk `r`) still fails: line 121 tuple-unpacks the kept chunk
(`x, _ = split_by_rank(x)`), which iterates the chunk's leading (batch)
axis and here finds extent 3, not 2. -/
theorem batch_to_seq_unpack_error :
    exceptIsOk (sharded_batch_to_sharded_seq 2 0
      [PyV.t2 [[1, 2]], PyV.t2 [[3, 4], [5, 6]]] [none, none] 1) = false := by
  rfl

set_option maxRecDepth 100000 in
/-- C9: `pad_to_multiple` does append exactly `(S - L mod S) mod S`
positions — 24 at `L = 1000`, `S = 256`, reaching padded length 1024, and
0 when `L` is already a multiple (probe at `L = 4`, `S = 2`) — but the
surrounding `sharded_batch_to_sharded_seq` then fails on the
tuple-rebinding of the padded mask (lines 104/113), so no mask shard
marking the 24 synthetic positions invalid, and no reassembled output of
length 1000, is ever produced. -/
theorem pad_1000_by_256 :
    padProbe (PyV.t2 [List.replicate 1000 0]) 256 = some (1024, 24) ∧
    padProbe (PyV.t2 [List.replicate 4 0]) 2 = some (4, 0) ∧
    exceptIsOk (sharded_batch_to_sharded_seq 2 0
      [PyV.t2 [List.replicate 1000 0], PyV.t2 [List.replicate 1000 0]]
      [none, none] 256) = false := by
  refine ⟨?_, ?_, ?_⟩ <;> rfl

/-- C8: construction of the module fails exactly when the ring shard size is
not divisible by the query bucket size, or not divisible by the key bucket
size, or the (defaulted) auto-shard flag is enabled while ring attention
is disabled; with all three conditions satisfied construction succeeds.
The bucket sizes are assumed positive: `divisible_by` divides by them
(Python raises on a zero modulus). -/
theorem init_fails_iff (dim dim_head heads : ℕ) (causal : Bool) (qb kb : ℕ)
    (ring_attn : Bool) (S : ℕ) (auto : Option Bool)
    (_hq : 0 < qb) (_hk : 0 < kb) :
    exceptIsOk (RingAttention_init dim dim_head heads causal qb kb
        ring_attn S auto) = false ↔
      (¬ S % qb = 0 ∨ ¬ S % kb = 0 ∨
        (auto.getD ring_attn = true ∧ ring_attn = false)) := by
  by_cases hq0 : S % qb = 0
  · by_cases hk0 : S % kb = 0
    · cases hr : ring_attn with
      | true =>
        simp [RingAttention_init, divisible_by, exceptIsOk, hq0, hk0]
      | false =>
        cases ha : auto.getD false with
        | true =>
          simp [RingAttention_init, divisible_by, exceptIsOk, hq0, hk0, ha]
        | false =>
          simp [RingAttention_init, divisible_by, exceptIsOk, hq0, hk0, ha]
    · simp [RingAttention_init, divisible_by, exceptIsOk, hq0, hk0]
  · simp [RingAttention_init, divisible_by, exceptIsOk, hq0]

/-- Witness for C8 at a concrete input: the source's default configuration
(bucket sizes 512, shard size 512, ring attention on, auto-shard
defaulted) constructs successfully. -/
theorem init_fails_iff_witness :
    (exceptIsOk (RingAttention_init 512 64 8 false 512 512 true 512 none) =
        false ↔
      (¬ (512 : ℕ) % 512 = 0 ∨ ¬ (512 : ℕ) % 512 = 0 ∨
        ((none : Option Bool).getD true = true ∧ true = false))) :=
  init_fails_iff 512 64 8 false 512 512 true 512 none
    (by norm_num) (by norm_num)

/-- C10: when the process is not distributed, `forward` ignores the
`ring_attn` and `auto_shard_seq` flags however they were set at
construction: it performs no sharding-gateway conversion, dispatches to
the fallback attention on the full input, and returns without error. -/
theorem forward_single_device_ignores_flags (cfg : RingAttentionCfg)
    (scale : ℚ) (W rank : ℕ) (peersX : List T3)
    (peersMask : List (Option T2b)) (peersOut : List PyV)
    (qkvSplit : T3 → T4 × T4 × T4) (combineHeads : T4 → T3)
    (outProj : T3 → T3) (attnDefault : T4 → T4 → T4 → Option T2b → Bool → T4)
    (attnRing : T4 → T4 → T4 → Option T2b → Bool → ℕ → ℕ → Bool → T4)
    (x : T3) (mask : Option T2b) :
    RingAttention_forward cfg scale false W rank peersX peersMask peersOut
        qkvSplit combineHeads outProj attnDefault attnRing x mask =
      Except.ok (forwardSingleDevice cfg scale qkvSplit combineHeads outProj
        attnDefault x mask) := by
  unfold RingAttention_forward forwardSingleDevice
  simp only [Bool.and_false, Bool.not_false, if_neg, if_pos, ite_false,
    ite_true, Bool.false_eq_true]
  rfl

/-- Concrete `[batch, sequence, feature]` input with 4 sequence positions
and 3 features, used to evaluate the auto-shard forward path. -/
def cex6X : T3 :=
  [[[1, 2, 3], [4, 5, 6], [7, 8, 9], [10, 11, 12]]]

/-- C6: with auto-sharding active (distributed, flag on), `forward` on the
`[batch = 1, sequence = 4, feature = 3]` input records `x.shape[-1] = 3` —
the feature extent, not the sequence length 4 — as `seq_len` (line 206),
pads and shards the feature axis through the gateway, and fails: no output
tensor of the input's shape is returned.  (Shard size 2 does not divide
the feature extent 3, so the gateway pads and hits its mask tuple slip;
the run errors instead of producing a same-shape output.) -/
theorem forward_autoshard_error_example :
    t3LastDim cex6X = 3 ∧ (cex6X.headD []).length = 4 ∧
    exceptIsOk (RingAttention_forward ⟨false, true, true, 2, 1, 1⟩ 1 true 2 0
      [cex6X, cex6X] [none, none] [] (fun _ => ([], [], [])) (fun _ => [])
      (fun y => y) (fun _ _ _ _ _ => []) (fun _ _ _ _ _ _ _ _ => [])
      cex6X none) = false := by
  refine ⟨rfl, rfl, ?_⟩
  rfl

end Gateway
